import Mathlib

/-!
# bond-tracker: the live transaction feed of the dashboard

A shallow embedding of `frontend/src/hooks/useWebSocket.js`: the four pieces of
React state held by the hook and the five event handlers that update them.

Modelling decisions.

* A `Transaction` carries the two fields the hook reads (`id` is used as the
  React key by the dashboard, `created_at` by the comparator) and one further
  display field.  A `created_at` that is present is an ISO timestamp string;
  it is represented by the time value (milliseconds) that `new Date(...)`
  yields for it.  `none` stands for an absent (falsy) field.
* `Array.prototype.sort` is a stable sort driven by the comparator.  It is
  represented by the stable insertion sort of the list, which places an element
  in front of the first element the comparator does not order before it.  When
  all timestamps are present the comparator is a consistent one, every stable
  sort returns the same array, and the representation is exact.  When a
  timestamp is absent the comparator answers `0` against every other entry and
  is no longer a consistent ordering: the order of the result is then the
  engine's own and the insertion sort need not agree with it.  For that reason
  every statement about the order of a sorted array assumes that all timestamps
  are present, statements that hold of any rearrangement (length, membership,
  multiset) are made without that assumption, and the examples with absent
  timestamps are arrays on which every comparison between neighbours answers
  `0`, so that a sort has nothing to move.
* `slice(0, 100)` is `List.take 100`.

The file also embeds the formatters of `utils/formatters.js`, the filter of
`components/BondList.js` and the price history of `components/BondDetail.js`.
A bond's yield may be `null` and a transaction's `trade_date` may be absent, as
the two components allow for when they render them.
Library routines whose output depends on the engine, the locale or a package
(`parseFloat`, `toLowerCase`, `toFixed` digits, `toLocaleString`, `format`) are
fields of a `Runtime` record the definitions take as a parameter.
-/

namespace BondTracker

/-- A transaction pushed by the feed. -/
structure Transaction where
  id : Option Nat
  isin : String
  created_at : Option Int
deriving DecidableEq, Repr

/-- The state returned by `useWebSocket` (lines 6-9 and 73-78). -/
structure HookState where
  isConnected : Bool
  transactions : List Transaction
  isLoading : Bool
  error : Option String
deriving DecidableEq, Repr

/-- The values passed to the four `useState` calls (lines 6-9). -/
def initialState : HookState :=
  { isConnected := false, transactions := [], isLoading := true, error := none }

/-- The comparator of lines 24-27: `0` as soon as one side has no `created_at`,
the difference of the two dates (second minus first) otherwise. -/
def compareCreatedAt (a b : Transaction) : Int :=
  match a.created_at, b.created_at with
  | some ta, some tb => tb - ta
  | _, _ => 0

/-- The comparator leaves `a` in front of `b`: its result is not positive. -/
def keepsBefore (a b : Transaction) : Prop := compareCreatedAt a b ≤ 0

instance : DecidableRel keepsBefore := fun a b => Int.decLe (compareCreatedAt a b) 0

/-- The call `combinedTransactions.sort(...)` of line 24, as a stable insertion
sort; exact when every entry has a `created_at`. -/
def sortByCreatedAt (combinedTransactions : List Transaction) : List Transaction :=
  combinedTransactions.insertionSort keepsBefore

/-- The updater given to `setTransactions` in lines 19-31: new transactions
ahead of the previous ones, sorted, and the first 100 kept. -/
def handleNewTransactions (data prevTransactions : List Transaction) : List Transaction :=
  let combinedTransactions := data ++ prevTransactions
  (sortByCreatedAt combinedTransactions).take 100

/-- The handler of lines 12-15; `data || []` turns a missing payload into `[]`. -/
def handleInitialData (data : Option (List Transaction)) (s : HookState) : HookState :=
  { s with transactions := data.getD [], isLoading := false }

/-- The effect of `handleNewTransactions(data)` on the hook state (lines 18-32). -/
def onNewTransactions (data : List Transaction) (s : HookState) : HookState :=
  { s with transactions := handleNewTransactions data s.transactions }

/-- The handler of lines 35-38. -/
def handleOpen (s : HookState) : HookState :=
  { s with isConnected := true, error := none }

/-- The handler of lines 41-43. -/
def handleClose (s : HookState) : HookState :=
  { s with isConnected := false }

/-- The handler of lines 46-49; the event object is not inspected. -/
def handleError (_event : String) (s : HookState) : HookState :=
  { s with error := some "WebSocket connection error", isConnected := false }

/-- The events the hook subscribes to (lines 54-58) with their payloads. -/
inductive Event where
  | initialData (data : Option (List Transaction))
  | newTransactions (data : List Transaction)
  | opened
  | closed
  | failed (event : String)
deriving DecidableEq, Repr

/-- Dispatch of one event to the handler registered for it (lines 54-58). -/
def step (s : HookState) : Event → HookState
  | .initialData data => handleInitialData data s
  | .newTransactions data => onNewTransactions data s
  | .opened => handleOpen s
  | .closed => handleClose s
  | .failed event => handleError event s

/-- The state after a finite sequence of events, delivered in order. -/
def run (s : HookState) (events : List Event) : HookState :=
  events.foldl step s

/-- An event that carries data: `initialData` or `newTransactions`. -/
def Event.isData : Event → Bool
  | .initialData _ => true
  | .newTransactions _ => true
  | _ => false

/-- The view after feeding batches, in order, to `handleNewTransactions`,
starting from the empty view. -/
def feed (batches : List (List Transaction)) : List Transaction :=
  batches.foldl (fun view batch => handleNewTransactions batch view) []

/-- Build a transaction from an id and a timestamp. -/
def mkTx (id : Nat) (createdAt : Int) : Transaction :=
  { id := some id, isin := "INE000A00000", created_at := some createdAt }

/-- Build a transaction that has an id and no `created_at`. -/
def mkUnstamped (id : Nat) : Transaction :=
  { id := some id, isin := "INE000A00000", created_at := none }

/-- The scenario transactions of the feed, with `T0 = 1000`. -/
def t1 : Transaction := mkTx 1 1000

/-- Second scenario transaction, one tick older than `t1`. -/
def t2 : Transaction := mkTx 2 999

/-- Third scenario transaction, one tick newer than `t1`. -/
def t3 : Transaction := mkTx 3 1001

/-- A newer version of `t1`: same id, later `created_at`. -/
def t1new : Transaction := mkTx 1 1002

/-- A record without its identifier. -/
def tNoId : Transaction :=
  { id := none, isin := "INE000A00000", created_at := some 1000 }

/-- A snapshot of 101 transactions with distinct ids, newest first. -/
def snapshot101 : List Transaction :=
  (List.range 101).map (fun i => mkTx i (2000 - (i : Int)))

/-- The entry `x` may stand in front of `y`: when both have a `created_at`,
that of `x` is not older. -/
def NotOlder (x y : Transaction) : Prop :=
  ∀ a b : Int, x.created_at = some a → y.created_at = some b → b ≤ a

/-- Every pair of adjacent entries that both have a `created_at` is in
non-increasing order. -/
def AdjacentOrdered (view : List Transaction) : Prop :=
  view.Chain' NotOlder

/-- No two entries of the view share an `id`. -/
def NoDuplicateIds (view : List Transaction) : Prop :=
  (view.map (fun t => t.id)).Nodup

instance (view : List Transaction) : Decidable (NoDuplicateIds view) :=
  inferInstanceAs (Decidable (List.Nodup _))

/-- Every entry of the list has a `created_at`. -/
def AllStamped (l : List Transaction) : Prop :=
  ∀ t ∈ l, t.created_at ≠ none

instance (l : List Transaction) : Decidable (AllStamped l) :=
  inferInstanceAs (Decidable (∀ t ∈ l, t.created_at ≠ none))

/-- Every pair of entries, adjacent or not, that both have a `created_at` is in
non-increasing order. -/
def AllPairsOrdered (view : List Transaction) : Prop :=
  view.Pairwise NotOlder

/-- Both entries have a `created_at`, and that of `t` is at most that of `u`. -/
def CreatedAtLe (t u : Transaction) : Prop :=
  ∃ a b : Int, t.created_at = some a ∧ u.created_at = some b ∧ a ≤ b

/-- The test "has `created_at` equal to `k`" used to select a group of ties. -/
def hasCreatedAt (k : Option Int) (t : Transaction) : Bool :=
  t.created_at == k

/-- What the feed description calls the stable sort by `created_at` descending:
`output` rearranges `input`, is in non-increasing order of `created_at`, and the
entries that share a `created_at` stand in the order they have in `input`. -/
structure IsStableSortDesc (input output : List Transaction) : Prop where
  perm : output.Perm input
  sorted : output.Pairwise NotOlder
  stable : ∀ k : Option Int, output.filter (hasCreatedAt k) = input.filter (hasCreatedAt k)

/-- 105 batches of one transaction each, with ids and timestamps `0 .. 104`. -/
def batches105 : List (List Transaction) :=
  (List.range 105).map (fun i => [mkTx i (i : Int)])

/-- The 100 most recent of the 105 transactions of `batches105`, newest first. -/
def newest100 : List Transaction :=
  (List.range 100).map (fun i => mkTx (104 - i) ((104 - i : Nat) : Int))

/-! ### JavaScript values read by the formatters (`utils/formatters.js`) -/

/-- A JavaScript number as far as the formatters can tell numbers apart: `NaN`,
the two infinities, and the finite values. -/
inductive JsNumber where
  | nan
  | negInf
  | finite (q : ℚ)
  | posInf
deriving DecidableEq

/-- The values a caller can hand to a formatter. -/
inductive JsValue where
  | null
  | undefined
  | boolean (b : Bool)
  | number (n : JsNumber)
  | string (s : String)
deriving DecidableEq

/-- The library routines the components call and whose output depends on the
engine, the locale or a package: the numeric reading of a string by
`Number(...)` and by `parseFloat(...)`, the digits `toFixed` prints for a finite
number, `toLocaleString`, `String.prototype.toLowerCase`, and the `format` of
`date-fns` with the pattern 'MMM d' applied to a time value. -/
structure Runtime where
  stringToNumber : String → JsNumber
  parseFloat : String → JsNumber
  fixedDigits : ℚ → Nat → String
  localeString : JsNumber → String
  toLowerCase : String → String
  formatMonthDay : Int → String

/-- The conversion `Number(value)`. -/
def toNumber (rt : Runtime) : JsValue → JsNumber
  | .null => .finite 0
  | .undefined => .nan
  | .boolean b => .finite (if b then 1 else 0)
  | .number n => n
  | .string s => rt.stringToNumber s

/-- The method `Number.prototype.toFixed`: a `RangeError` when the number of
digits is outside `0 .. 100`, the plain name of a value that is not finite,
the printed digits otherwise. -/
def toFixed (rt : Runtime) (x : JsNumber) (fractionDigits : Int) : Except String String :=
  if fractionDigits < 0 ∨ 100 < fractionDigits then .error "RangeError"
  else
    match x with
    | .nan => .ok "NaN"
    | .posInf => .ok "Infinity"
    | .negInf => .ok "-Infinity"
    | .finite q => .ok (rt.fixedDigits q fractionDigits.toNat)

/-- The formatter `formatCurrency` (lines 46-55). -/
def formatCurrency (rt : Runtime) (value : JsValue) (decimals : Int) : String :=
  if value = .null ∨ value = .undefined then "N/A"
  else
    match toFixed rt (toNumber rt value) decimals with
    | .ok digits => "₹" ++ digits
    | .error _ => "N/A"

/-- The formatter `formatPercentage` (lines 63-72). -/
def formatPercentage (rt : Runtime) (value : JsValue) (decimals : Int) : String :=
  if value = .null ∨ value = .undefined then "N/A"
  else
    match toFixed rt (toNumber rt value) decimals with
    | .ok digits => digits ++ "%"
    | .error _ => "N/A"

/-- The formatter `formatNumber` (lines 79-88); `toLocaleString` does not throw. -/
def formatNumber (rt : Runtime) (value : JsValue) : String :=
  if value = .null ∨ value = .undefined then "N/A"
  else rt.localeString (toNumber rt value)

/-- The mapping `getSourceColor` (lines 95-106); `switch` compares with `===`. -/
def getSourceColor (source : JsValue) : String :=
  if source = .string "NSE" then "primary"
  else if source = .string "BSE" then "secondary"
  else if source = .string "NSDL" then "default"
  else "default"

/-! ### The bond list (`components/BondList.js`) -/

/-- The comparison `a <= b` of two numbers: `false` as soon as one is `NaN`. -/
def jsLe : JsNumber → JsNumber → Bool
  | .nan, _ => false
  | _, .nan => false
  | .negInf, _ => true
  | _, .posInf => true
  | .finite p, .finite q => decide (p ≤ q)
  | .finite _, .negInf => false
  | .posInf, .finite _ => false
  | .posInf, .negInf => false

/-- The comparison `a >= b` of two numbers. -/
def jsGe (a b : JsNumber) : Bool := jsLe b a

/-- The method `String.prototype.includes`: `searchString` occurs in `s`. -/
def includes (s searchString : String) : Bool :=
  decide (searchString.data <:+: s.data)

/-- A bond as the list reads it.  The yield is the value the backend sent: a
JSON number, or `null` for a bond that has none, which line 170 allows for. -/
structure Bond where
  isin : String
  name : String
  exchange : String
  yield_to_maturity : JsValue
deriving DecidableEq

/-- The `filters` state of the list (lines 14-18); the bounds are the texts of
the two inputs. -/
structure Filters where
  source : String
  minYield : String
  maxYield : String
deriving DecidableEq

/-- The initial `filters` state (lines 14-18). -/
def defaultFilters : Filters := { source := "all", minYield := "", maxYield := "" }

/-- The callback given to `bonds.filter` (lines 38-51); `!filters.minYield` holds
exactly for the empty text, and `>=`, `<=` against a number first convert the
yield to a number. -/
def matchesBond (rt : Runtime) (searchTerm : String) (filters : Filters) (bond : Bond) : Bool :=
  let matchesSearch :=
    includes (rt.toLowerCase bond.isin) (rt.toLowerCase searchTerm) ||
      includes (rt.toLowerCase bond.name) (rt.toLowerCase searchTerm)
  let matchesSource := filters.source == "all" || bond.exchange == filters.source
  let matchesYield :=
    (filters.minYield == "" ||
        jsGe (toNumber rt bond.yield_to_maturity) (rt.parseFloat filters.minYield)) &&
      (filters.maxYield == "" ||
        jsLe (toNumber rt bond.yield_to_maturity) (rt.parseFloat filters.maxYield))
  matchesSearch && matchesSource && matchesYield

/-- The list `filteredBonds` of lines 38-51. -/
def filteredBonds (rt : Runtime) (bonds : List Bond) (searchTerm : String)
    (filters : Filters) : List Bond :=
  bonds.filter (matchesBond rt searchTerm filters)

/-- The isin or the name of the bond contains the search term, letter case
set aside. -/
def ContainsTerm (rt : Runtime) (searchTerm : String) (bond : Bond) : Prop :=
  (rt.toLowerCase searchTerm).data <:+: (rt.toLowerCase bond.isin).data ∨
    (rt.toLowerCase searchTerm).data <:+: (rt.toLowerCase bond.name).data

/-- The exchange of the bond is the selected source, or the source is 'all'. -/
def SourceSelected (filters : Filters) (bond : Bond) : Prop :=
  bond.exchange = filters.source ∨ filters.source = "all"

/-- The order of numbers, stated on its own: `a` is at most `b`.  `NaN` is at
most nothing and nothing is at most `NaN`. -/
inductive NumberLe : JsNumber → JsNumber → Prop where
  | finite {p q : ℚ} (h : p ≤ q) : NumberLe (.finite p) (.finite q)
  | negInfFinite (q : ℚ) : NumberLe .negInf (.finite q)
  | finitePosInf (p : ℚ) : NumberLe (.finite p) .posInf
  | negInfNegInf : NumberLe .negInf .negInf
  | negInfPosInf : NumberLe .negInf .posInf
  | posInfPosInf : NumberLe .posInf .posInf

/-- The bond has a yield, a number, and that number is at least the lower bound
when one is given and at most the upper bound when one is given. -/
def YieldWithinBounds (rt : Runtime) (filters : Filters) (bond : Bond) : Prop :=
  (filters.minYield ≠ "" →
      ∃ y, bond.yield_to_maturity = .number y ∧ NumberLe (rt.parseFloat filters.minYield) y) ∧
    (filters.maxYield ≠ "" →
      ∃ y, bond.yield_to_maturity = .number y ∧ NumberLe y (rt.parseFloat filters.maxYield))

/-- Every bond of the list has a number as its yield. -/
def NumericYields (bonds : List Bond) : Prop :=
  ∀ b ∈ bonds, ∃ y, b.yield_to_maturity = .number y

/-- The value of a text made of decimal digits only; `none` for any other text. -/
def wholeNumber (s : String) : Option Nat :=
  if s.data = [] then none
  else
    s.data.foldl
      (fun acc c => acc.bind (fun n => if c.isDigit then some (n * 10 + (c.toNat - 48)) else none))
      (some 0)

/-- A runtime to evaluate examples with: ASCII lower-casing, whole decimal
numbers only, a time value printed as its number. -/
def sampleRuntime : Runtime where
  stringToNumber := fun s => match wholeNumber s with
    | some n => .finite n
    | none => .nan
  parseFloat := fun s => match wholeNumber s with
    | some n => .finite n
    | none => .nan
  fixedDigits := fun q _ => toString q.floor
  localeString := fun _ => "NaN"
  toLowerCase := fun s => String.mk (s.data.map Char.toLower)
  formatMonthDay := fun t => toString t

/-- Two bonds for the examples. -/
def sampleBonds : List Bond :=
  [{ isin := "INE001A07RS8", name := "HDFC 2030", exchange := "NSE",
     yield_to_maturity := .number (.finite 7) },
   { isin := "INE002A08534", name := "Reliance 2028", exchange := "BSE",
     yield_to_maturity := .number (.finite 8) }]

/-- A bond for which the backend sent no yield. -/
def nullYieldBond : Bond :=
  { isin := "INE003A01024", name := "Unrated 2031", exchange := "NSE",
    yield_to_maturity := .null }

/-- The filters with an upper bound of 5 on the yield and nothing else. -/
def maxFiveFilters : Filters := { source := "all", minYield := "", maxYield := "5" }

/-! ### The price history of a bond (`components/BondDetail.js`) -/

/-- A transaction as the detail page reads it.  `trade_date` is the time value
of `new Date(t.trade_date)`, or `none` when the field is absent or cannot be
read as a date, which lines 337-338 allow for: `new Date(...)` is then an
Invalid Date, whose time value is `NaN`.  Price and yield may be absent. -/
structure BondTransaction where
  trade_date : Option Int
  price : Option ℚ
  yield_value : Option ℚ
deriving DecidableEq

/-- A point of the price chart (lines 127-131). -/
structure PricePoint where
  date : String
  price : Option ℚ
  yield : Option ℚ
deriving DecidableEq

/-- The comparator of lines 101-103: the difference of the two dates, first
minus second; `none` is the `NaN` that an Invalid Date gives. -/
def compareTradeDate (a b : BondTransaction) : Option Int :=
  match a.trade_date, b.trade_date with
  | some x, some y => some (x - y)
  | _, _ => none

/-- The comparator leaves `a` in front of `b`: its result, with `NaN` read as
`0` as `sort` does, is not positive. -/
def tradeDateOrder (a b : BondTransaction) : Prop := (compareTradeDate a b).getD 0 ≤ 0

instance : DecidableRel tradeDateOrder :=
  fun a b => Int.decLe ((compareTradeDate a b).getD 0) 0

/-- The test `diff <= bound` of lines 113-121; it is `false` when `diff` is `NaN`. -/
def diffAtMost (diff : Option Int) (bound : Int) : Bool :=
  match diff with
  | some d => decide (d ≤ bound)
  | none => false

/-- The callback given to `sortedTransactions.filter` (lines 107-125). -/
def inTimeRange (timeRange : String) (now : Int) (t : BondTransaction) : Bool :=
  let diff := t.trade_date.map (fun date => now - date)
  if timeRange = "1D" then diffAtMost diff (24 * 60 * 60 * 1000)
  else if timeRange = "1W" then diffAtMost diff (7 * 24 * 60 * 60 * 1000)
  else if timeRange = "1M" then diffAtMost diff (30 * 24 * 60 * 60 * 1000)
  else if timeRange = "3M" then diffAtMost diff (90 * 24 * 60 * 60 * 1000)
  else if timeRange = "1Y" then diffAtMost diff (365 * 24 * 60 * 60 * 1000)
  else true

/-- The array `filteredTransactions` of lines 101-125: the transactions sorted
with the comparator, then those in the time range; the sort is the stable
insertion sort, exact when every `trade_date` is a date. -/
def filteredTransactions (transactions : List BondTransaction) (now : Int)
    (timeRange : String) : List BondTransaction :=
  (transactions.insertionSort tradeDateOrder).filter (inTimeRange timeRange now)

/-- The point of a transaction whose date has the time value `date`. -/
def pricePointAt (rt : Runtime) (date : Int) (t : BondTransaction) : PricePoint :=
  { date := rt.formatMonthDay date, price := t.price, yield := t.yield_value }

/-- The object built for one transaction in lines 127-131; `format` of
`date-fns` throws a `RangeError` on an Invalid Date. -/
def toPricePoint (rt : Runtime) (t : BondTransaction) : Except String PricePoint :=
  match t.trade_date with
  | some date => .ok (pricePointAt rt date t)
  | none => .error "RangeError: Invalid time value"

/-- The call `filteredTransactions.map(...)` of lines 127-131: the points in
order, or the first exception thrown. -/
def toPricePoints (rt : Runtime) : List BondTransaction → Except String (List PricePoint)
  | [] => .ok []
  | t :: rest =>
    match toPricePoint rt t with
    | .error e => .error e
    | .ok point =>
      match toPricePoints rt rest with
      | .error e => .error e
      | .ok points => .ok (point :: points)

/-- The function `preparePriceHistoryData` (lines 97-132), with the
`transactions` and `timeRange` state and the current time it reads. -/
def preparePriceHistoryData (rt : Runtime) (transactions : List BondTransaction) (now : Int)
    (timeRange : String) : Except String (List PricePoint) :=
  if transactions.length = 0 then .ok []
  else toPricePoints rt (filteredTransactions transactions now timeRange)

/-- The length in days of the window of a range; `none` for a range that keeps
every transaction. -/
def windowDays (timeRange : String) : Option Int :=
  if timeRange = "1D" then some 1
  else if timeRange = "1W" then some 7
  else if timeRange = "1M" then some 30
  else if timeRange = "3M" then some 90
  else if timeRange = "1Y" then some 365
  else none

/-- Every transaction of the list has a `trade_date` that is a date. -/
def AllDated (transactions : List BondTransaction) : Prop :=
  ∀ t ∈ transactions, t.trade_date ≠ none

instance (transactions : List BondTransaction) : Decidable (AllDated transactions) :=
  inferInstanceAs (Decidable (∀ t ∈ transactions, t.trade_date ≠ none))

/-- The transaction has a date and its age `now - trade_date` is at most the
window of the range, a day being 86 400 000 milliseconds. -/
def WithinWindow (timeRange : String) (now : Int) (t : BondTransaction) : Prop :=
  ∃ date, t.trade_date = some date ∧
    ∀ days, windowDays timeRange = some days → now - date ≤ days * 86400000

/-- The entry `a` may stand in front of `b` in ascending order of `trade_date`:
both have a date and that of `a` is not later. -/
def TradeDateLe (a b : BondTransaction) : Prop :=
  ∃ x y : Int, a.trade_date = some x ∧ b.trade_date = some y ∧ x ≤ y

/-- The window of `shorter` is at most that of `longer`. -/
def WindowLe (shorter longer : String) : Prop :=
  match windowDays shorter, windowDays longer with
  | _, none => True
  | none, some _ => False
  | some a, some b => a ≤ b

/-- A transaction traded on the given day after the epoch. -/
def tradeOnDay (day : Int) : BondTransaction :=
  { trade_date := some (day * 86400000), price := none, yield_value := none }

/-- A transaction whose `trade_date` is absent. -/
def undatedTrade : BondTransaction :=
  { trade_date := none, price := none, yield_value := none }

/-- Three transactions for the examples, not in date order: days 100, 40 and
99 after the epoch. -/
def sampleTrades : List BondTransaction :=
  [tradeOnDay 100, tradeOnDay 40, tradeOnDay 99]

/-- Three transactions, the second without a date: day 100, no date, day 99. -/
def gapTrades : List BondTransaction :=
  [tradeOnDay 100, undatedTrade, tradeOnDay 99]

/-! ### The stream connector (`services/websocketService.js`)

The hook imports the connector from `services/websocketService.js`; that file
is not among the sources, only its callers are.  The connector is therefore
described here after the written design of the feed. -/

/-- Modelled from the spec: the connection state of the connector of
`services/websocketService.js`, one of `disconnected`, `connecting`,
`connected`, `error`. -/
inductive ConnectionState where
  | disconnected
  | connecting
  | connected
  | error
deriving DecidableEq, Repr

/-- The name under which listeners register for an event (lines 54-58 of the hook). -/
def Event.name : Event → String
  | .initialData _ => "initialData"
  | .newTransactions _ => "newTransactions"
  | .opened => "open"
  | .closed => "close"
  | .failed _ => "error"

/-- Modelled from the spec: a registration made by `addEventListener` of
`services/websocketService.js`: the event name and the handler, which returns
or throws when it is called; `id` tells registrations apart. -/
structure Listener where
  id : Nat
  eventName : String
  handler : Event → Except String Unit

/-- Modelled from the spec: the connector of `services/websocketService.js`: its
connection state, the number of transports it has opened, and its listeners in
registration order. -/
structure Connector where
  state : ConnectionState
  transports : Nat
  listeners : List Listener

/-- Modelled from the spec: the record of one call of a handler during a dispatch
of `services/websocketService.js`, and whether the handler threw. -/
structure Invocation where
  listener : Nat
  threw : Bool
deriving DecidableEq, Repr

/-- Modelled from the spec: `connect()` of `services/websocketService.js`: a
no-op when already connected or connecting, otherwise it opens the transport
and the connector is connecting; it fires no event itself. -/
def connect (c : Connector) : Connector × List Event :=
  if c.state = .connected ∨ c.state = .connecting then (c, [])
  else ({ c with state := .connecting, transports := c.transports + 1 }, [])

/-- Modelled from the spec: the successful opening of the transport of
`services/websocketService.js`: the connector is connected and fires `open`. -/
def transportOpened (c : Connector) : Connector × List Event :=
  ({ c with state := .connected }, [Event.opened])

/-- Modelled from the spec: the dispatch loop of `services/websocketService.js`
over the handlers of one event: each handler is called in turn, and an
exception it throws is caught before the next handler is called. -/
def invokeAll (event : Event) : List Listener → List Invocation
  | [] => []
  | l :: rest =>
    match l.handler event with
    | .ok _ => { listener := l.id, threw := false } :: invokeAll event rest
    | .error _ => { listener := l.id, threw := true } :: invokeAll event rest

/-- Modelled from the spec: the dispatch of an event by
`services/websocketService.js` to the listeners registered under its name, in
registration order. -/
def dispatch (c : Connector) (event : Event) : List Invocation :=
  invokeAll event (c.listeners.filter (fun l => l.eventName == event.name))

/-- Modelled from the spec: an inbound message as `services/websocketService.js`
receives it: the discriminator `type`, absent or a text, and the payload,
absent when it is malformed. -/
structure Message where
  type : Option String
  payload : Option (List Transaction)
deriving DecidableEq, Repr

/-- Modelled from the spec: the classification of an inbound message by
`services/websocketService.js`: "initial_data" and "new_transactions" with a
well-formed payload become the events of the same name, anything else is
dropped. -/
def classify (m : Message) : Option Event :=
  if m.type = some "initial_data" then m.payload.map (fun ts => Event.initialData (some ts))
  else if m.type = some "new_transactions" then m.payload.map Event.newTransactions
  else none

/-- Modelled from the spec: the receipt of an inbound message by
`services/websocketService.js`: the connector after it, the events fired and
the handler calls made. -/
def onMessage (c : Connector) (m : Message) : Connector × List Event × List Invocation :=
  match classify m with
  | none => (c, [], [])
  | some event => (c, [event], dispatch c event)

/-- A handler that returns normally. -/
def quietHandler : Event → Except String Unit := fun _ => .ok ()

/-- A handler that throws. -/
def throwingHandler : Event → Except String Unit := fun _ => .error "handler failed"

/-- A connected connector with three listeners for `newTransactions`, the second
of which throws, and one listener for `open`. -/
def sampleConnector : Connector :=
  { state := .connected
    transports := 1
    listeners :=
      [{ id := 1, eventName := "newTransactions", handler := quietHandler },
       { id := 2, eventName := "newTransactions", handler := throwingHandler },
       { id := 3, eventName := "open", handler := quietHandler },
       { id := 4, eventName := "newTransactions", handler := quietHandler }] }

/-- The connection flag and the error agree: a connected hook has no error. -/
def ConnectionConsistent (s : HookState) : Prop :=
  s.isConnected = true → s.error = none

instance (s : HookState) : Decidable (ConnectionConsistent s) :=
  inferInstanceAs (Decidable (s.isConnected = true → s.error = none))

/-! ## The comparator and the sort -/

theorem keepsBefore_of_not {a b : Transaction} (h : ¬ keepsBefore a b) : keepsBefore b a := by
  unfold keepsBefore compareCreatedAt at *
  cases ha : a.created_at <;> cases hb : b.created_at <;> simp_all
  omega

theorem notOlder_of_keepsBefore {a b : Transaction} (h : keepsBefore a b) : NotOlder a b := by
  intro x y hx hy
  unfold keepsBefore compareCreatedAt at h
  simp only [hx, hy] at h
  omega

theorem head?_orderedInsert (a : Transaction) (l : List Transaction) :
    ∀ y ∈ (l.orderedInsert keepsBefore a).head?, y = a ∨ y ∈ l.head? := by
  intro y hy
  cases l with
  | nil => simp at hy; exact Or.inl hy.symm
  | cons c l =>
    simp only [List.orderedInsert] at hy
    split_ifs at hy with h
    · simp at hy; exact Or.inl hy.symm
    · simp at hy; right; simp [hy]

theorem chain'_orderedInsert (a : Transaction) :
    ∀ l : List Transaction, l.Chain' keepsBefore →
      (l.orderedInsert keepsBefore a).Chain' keepsBefore
  | [], _ => by simp
  | b :: l, h => by
    simp only [List.orderedInsert]
    split_ifs with hab
    · exact List.Chain'.cons hab h
    · rw [List.chain'_cons'] at h ⊢
      refine ⟨?_, chain'_orderedInsert a l h.2⟩
      intro y hy
      rcases head?_orderedInsert a l y hy with rfl | hy
      · exact keepsBefore_of_not hab
      · exact h.1 y hy

theorem chain'_sortByCreatedAt :
    ∀ l : List Transaction, (sortByCreatedAt l).Chain' keepsBefore
  | [] => by simp [sortByCreatedAt]
  | a :: l => by
    simpa [sortByCreatedAt] using chain'_orderedInsert a _ (chain'_sortByCreatedAt l)

theorem perm_sortByCreatedAt (l : List Transaction) : (sortByCreatedAt l).Perm l :=
  List.perm_insertionSort _ l

theorem length_sortByCreatedAt (l : List Transaction) :
    (sortByCreatedAt l).length = l.length :=
  List.length_insertionSort _ l

theorem length_handleNewTransactions (data prev : List Transaction) :
    (handleNewTransactions data prev).length = min 100 (data.length + prev.length) := by
  simp [handleNewTransactions, length_sortByCreatedAt]

theorem mem_of_mem_handleNewTransactions {data prev : List Transaction} {t : Transaction}
    (h : t ∈ handleNewTransactions data prev) : t ∈ data ++ prev :=
  (perm_sortByCreatedAt (data ++ prev)).subset (List.mem_of_mem_take h)

/-! ## The claims -/

/-- C1, evaluated on the code: merging the batch `[t1new]` into the view `[t1]`,
where both entries have id 1, returns both of them, so the result holds two
entries with equal `id`. -/
theorem handleNewTransactions_keeps_both_versions :
    handleNewTransactions [t1new] [t1] = [t1new, t1] ∧
      ¬ NoDuplicateIds (handleNewTransactions [t1new] [t1]) := by
  decide

/-- C2 as stated fails: one `initialData` event with a snapshot of 101 entries
leads from the initial state to a view of length 101. -/
theorem bound_fails_after_large_snapshot :
    (∀ e ∈ [Event.initialData (some snapshot101)], e.isData = true) ∧
      ¬ (run initialState [Event.initialData (some snapshot101)]).transactions.length ≤ 100 := by
  constructor
  · simp [Event.isData]
  · simp [run, step, handleInitialData, snapshot101]

theorem run_length_le (events : List Event)
    (hsnap : ∀ ts, Event.initialData (some ts) ∈ events → ts.length ≤ 100) :
    ∀ s : HookState, s.transactions.length ≤ 100 →
      (run s events).transactions.length ≤ 100 := by
  induction events with
  | nil => intro s hs; simpa [run] using hs
  | cons e es ih =>
    intro s hs
    have hes : ∀ ts, Event.initialData (some ts) ∈ es → ts.length ≤ 100 :=
      fun ts h => hsnap ts (List.mem_cons_of_mem _ h)
    have hstep : (step s e).transactions.length ≤ 100 := by
      cases e with
      | initialData data =>
        cases data with
        | none => simp [step, handleInitialData]
        | some ts => simpa [step, handleInitialData] using hsnap ts (List.mem_cons_self _ _)
      | newTransactions data =>
        simp only [step, onNewTransactions, length_handleNewTransactions]
        exact Nat.min_le_left _ _
      | opened => simpa [step, handleOpen] using hs
      | closed => simpa [step, handleClose] using hs
      | failed event => simpa [step, handleError] using hs
    simpa [run] using ih hes (step s e) hstep

/-- C2, amended: in every state reachable from the initial state by a finite
sequence of events whose `initialData` snapshots hold at most 100 entries each,
the view has at most 100 entries; and whatever the state and the batch, the
view right after a `newTransactions` event has at most 100 entries. -/
theorem view_length_le_cap (events : List Event)
    (hsnap : ∀ ts, Event.initialData (some ts) ∈ events → ts.length ≤ 100) :
    (run initialState events).transactions.length ≤ 100 ∧
      ∀ (s : HookState) (data : List Transaction),
        (step s (Event.newTransactions data)).transactions.length ≤ 100 := by
  refine ⟨run_length_le events hsnap initialState (by simp [initialState]), ?_⟩
  intro s data
  simp only [step, onNewTransactions, length_handleNewTransactions]
  exact Nat.min_le_left _ _

/-- Instance of `view_length_le_cap`: the snapshot `[t1, t2]` followed by the batch `[t3]`. -/
theorem view_length_le_cap_witness :
    (∀ ts, Event.initialData (some ts) ∈
        [Event.initialData (some [t1, t2]), Event.newTransactions [t3]] → ts.length ≤ 100) ∧
    (run initialState
        [Event.initialData (some [t1, t2]), Event.newTransactions [t3]]).transactions.length
      ≤ 100 :=
  have h : ∀ ts, Event.initialData (some ts) ∈
      [Event.initialData (some [t1, t2]), Event.newTransactions [t3]] → ts.length ≤ 100 := by
    intro ts hts
    simp at hts
    subst hts
    decide
  ⟨h, (view_length_le_cap _ h).1⟩

/-- C3 as stated fails for `onInitialData`: the snapshot is stored as received,
so a snapshot in ascending order leaves an adjacent pair in ascending order. -/
theorem order_fails_after_initialData :
    ¬ AdjacentOrdered
        (handleInitialData (some [mkTx 1 1, mkTx 2 2]) initialState).transactions := by
  simp [AdjacentOrdered, handleInitialData, NotOlder, mkTx]

/-- C5: `handleInitialData` with a sequence `ts` makes the view exactly `ts`,
whatever the previous state, and clears the loading flag; for instance the
snapshot `[t1, t2]` gives the view `[t1, t2]`. -/
theorem handleInitialData_replaces_view (s : HookState) (ts : List Transaction) :
    (handleInitialData (some ts) s).transactions = ts ∧
      (handleInitialData (some ts) s).isLoading = false ∧
      (handleInitialData (some [t1, t2]) s).transactions = [t1, t2] := by
  simp [handleInitialData]

/-- C10: after `handleOpen` the hook is connected and the error is cleared,
while the view and the loading flag are those of the previous state. -/
theorem handleOpen_connects (s : HookState) :
    (handleOpen s).isConnected = true ∧ (handleOpen s).error = none ∧
      (handleOpen s).transactions = s.transactions ∧
      (handleOpen s).isLoading = s.isLoading := by
  simp [handleOpen]

/-- C6, evaluated on the code: merging `[t1new]` into the view `[t3, t1, t2]`
returns `[t1new, t3, t1, t2]`; the older entry with id 1 is still there. -/
theorem handleNewTransactions_keeps_replaced_entry :
    handleNewTransactions [t1new] [t3, t1, t2] = [t1new, t3, t1, t2] ∧
      t1 ∈ handleNewTransactions [t1new] [t3, t1, t2] ∧ t1.id = t1new.id := by
  decide

/-- C7 as stated fails: a batch entry without an `id` is merged into the view
like any other entry. -/
theorem missing_id_is_kept :
    handleNewTransactions [tNoId] [t1] = [tNoId, t1] ∧
      ¬ ∀ t ∈ handleNewTransactions [tNoId] [t1], t.id ≠ none := by
  decide

/-- C7, amended: `handleNewTransactions` returns, for every view and batch, a
view made of entries of the batch and of the previous view only, so no entry of
the result is missing its `id` when none of the batch and of the view is; an
entry of the batch, with or without `id`, is in the result whenever batch and
view together hold at most 100 entries. -/
theorem handleNewTransactions_entries (data prev : List Transaction) :
    (∀ t ∈ handleNewTransactions data prev, t ∈ data ∨ t ∈ prev) ∧
      ((∀ t ∈ data ++ prev, t.id ≠ none) →
        ∀ t ∈ handleNewTransactions data prev, t.id ≠ none) ∧
      (data.length + prev.length ≤ 100 →
        ∀ t ∈ data, t ∈ handleNewTransactions data prev) := by
  refine ⟨?_, ?_, ?_⟩
  · intro t ht
    exact List.mem_append.mp (mem_of_mem_handleNewTransactions ht)
  · intro hid t ht
    exact hid t (mem_of_mem_handleNewTransactions ht)
  · intro hlen t ht
    have htake : handleNewTransactions data prev = sortByCreatedAt (data ++ prev) := by
      unfold handleNewTransactions
      apply List.take_of_length_le
      rw [length_sortByCreatedAt, List.length_append]
      exact hlen
    rw [htake]
    exact (perm_sortByCreatedAt (data ++ prev)).mem_iff.mpr (List.mem_append_left _ ht)

/-- Instance of `handleNewTransactions_entries`: the batch `[t3]` merged into `[t1, t2]`. -/
theorem handleNewTransactions_entries_witness :
    (∀ t ∈ [t3] ++ [t1, t2], t.id ≠ none) ∧ [t3].length + [t1, t2].length ≤ 100 ∧
      (∀ t ∈ handleNewTransactions [t3] [t1, t2], t.id ≠ none) ∧
      (∀ t ∈ [t3], t ∈ handleNewTransactions [t3] [t1, t2]) :=
  ⟨by decide, by decide,
    (handleNewTransactions_entries [t3] [t1, t2]).2.1 (by decide),
    (handleNewTransactions_entries [t3] [t1, t2]).2.2 (by decide)⟩

theorem keepsBefore_trans {a b c : Transaction} (hb : b.created_at ≠ none)
    (hab : keepsBefore a b) (hbc : keepsBefore b c) : keepsBefore a c := by
  unfold keepsBefore compareCreatedAt at *
  cases ha : a.created_at <;> cases hb' : b.created_at <;> cases hc : c.created_at <;>
    simp_all
  omega

theorem pairwise_of_chain' :
    ∀ l : List Transaction, AllStamped l → l.Chain' keepsBefore → l.Pairwise keepsBefore
  | [], _, _ => List.Pairwise.nil
  | [a], _, _ => by simp
  | a :: b :: l, hst, hch => by
    rw [List.chain'_cons] at hch
    have hst' : AllStamped (b :: l) := fun t ht => hst t (List.mem_cons_of_mem _ ht)
    have ih := pairwise_of_chain' (b :: l) hst' hch.2
    refine List.pairwise_cons.mpr ⟨?_, ih⟩
    intro c hc
    rcases List.mem_cons.mp hc with rfl | hc
    · exact hch.1
    · exact keepsBefore_trans (hst b (by simp)) hch.1 ((List.pairwise_cons.mp ih).1 c hc)

theorem allStamped_sortByCreatedAt {l : List Transaction} (h : AllStamped l) :
    AllStamped (sortByCreatedAt l) :=
  fun t ht => h t ((perm_sortByCreatedAt l).mem_iff.mp ht)

theorem pairwise_sortByCreatedAt {l : List Transaction} (h : AllStamped l) :
    (sortByCreatedAt l).Pairwise keepsBefore :=
  pairwise_of_chain' _ (allStamped_sortByCreatedAt h) (chain'_sortByCreatedAt l)

theorem createdAtLe_of_keepsBefore {u t : Transaction} (hu : u.created_at ≠ none)
    (ht : t.created_at ≠ none) (h : keepsBefore u t) : CreatedAtLe t u := by
  obtain ⟨a, ha⟩ := Option.ne_none_iff_exists'.mp hu
  obtain ⟨b, hb⟩ := Option.ne_none_iff_exists'.mp ht
  refine ⟨b, a, hb, ha, ?_⟩
  unfold keepsBefore compareCreatedAt at h
  simp only [ha, hb] at h
  omega

theorem pairwise_handleNewTransactions {data prev : List Transaction}
    (hst : AllStamped (data ++ prev)) :
    (handleNewTransactions data prev).Pairwise keepsBefore :=
  (pairwise_sortByCreatedAt hst).sublist (List.take_sublist _ _)

/-- C3, amended: when every transaction of the batch and of the previous view has
a `created_at`, every pair of adjacent entries of the view returned by
`handleNewTransactions` is in non-increasing order of `created_at`, and every
entry of that view has a `created_at`; a view produced by `handleInitialData`
is the snapshot in the order received. -/
theorem handleNewTransactions_adjacentOrdered (data prev : List Transaction)
    (hst : AllStamped (data ++ prev)) :
    AdjacentOrdered (handleNewTransactions data prev) ∧
      AllStamped (handleNewTransactions data prev) ∧
      ∀ (s : HookState) (ts : List Transaction),
        (handleInitialData (some ts) s).transactions = ts := by
  refine ⟨?_, ?_, ?_⟩
  · unfold AdjacentOrdered
    have h : (handleNewTransactions data prev).Pairwise NotOlder :=
      (pairwise_handleNewTransactions hst).imp (fun hab => notOlder_of_keepsBefore hab)
    exact List.Pairwise.chain' h
  · intro t ht
    exact hst t (mem_of_mem_handleNewTransactions ht)
  · intro s ts
    rfl

/-- Instance of `handleNewTransactions_adjacentOrdered`: the batch `[t3]` merged into the
ascending view `[t2, t1]` gives `[t3, t1, t2]`. -/
theorem handleNewTransactions_adjacentOrdered_witness :
    AllStamped ([t3] ++ [t2, t1]) ∧ handleNewTransactions [t3] [t2, t1] = [t3, t1, t2] ∧
      AdjacentOrdered (handleNewTransactions [t3] [t2, t1]) :=
  ⟨by decide, by decide,
    (handleNewTransactions_adjacentOrdered [t3] [t2, t1] (by decide)).1⟩

/-- C9 as stated fails: with an entry without `created_at` between them, an
older entry stays in front of a newer one. -/
theorem all_pairs_order_fails :
    handleNewTransactions [mkTx 1 1] [mkUnstamped 2, mkTx 3 2]
        = [mkTx 1 1, mkUnstamped 2, mkTx 3 2] ∧
      ¬ AllPairsOrdered (handleNewTransactions [mkTx 1 1] [mkUnstamped 2, mkTx 3 2]) := by
  have h : handleNewTransactions [mkTx 1 1] [mkUnstamped 2, mkTx 3 2]
      = [mkTx 1 1, mkUnstamped 2, mkTx 3 2] := by decide
  refine ⟨h, ?_⟩
  rw [h]
  simp [AllPairsOrdered, NotOlder, mkTx, mkUnstamped]

/-- C9, amended: when every transaction of the batch and of the previous view has
a `created_at`, then in the view returned by `handleNewTransactions`, for all
positions `i < j`, adjacent or not, the entries at `i` and at `j` both have a
`created_at` and that of the entry at `i` is at least that of the entry at `j`. -/
theorem handleNewTransactions_pairs_ordered (data prev : List Transaction)
    (hst : AllStamped (data ++ prev)) (i j : Nat) (x y : Transaction) (hij : i < j)
    (hx : (handleNewTransactions data prev)[i]? = some x)
    (hy : (handleNewTransactions data prev)[j]? = some y) :
    CreatedAtLe y x := by
  obtain ⟨hi, hxi⟩ := List.getElem?_eq_some.mp hx
  obtain ⟨hj, hyj⟩ := List.getElem?_eq_some.mp hy
  have hpw := List.pairwise_iff_getElem.mp (pairwise_handleNewTransactions hst) i j hi hj hij
  rw [hxi, hyj] at hpw
  have hxm : x ∈ handleNewTransactions data prev := hxi ▸ List.getElem_mem hi
  have hym : y ∈ handleNewTransactions data prev := hyj ▸ List.getElem_mem hj
  exact createdAtLe_of_keepsBefore (hst x (mem_of_mem_handleNewTransactions hxm))
    (hst y (mem_of_mem_handleNewTransactions hym)) hpw

/-- Instance of `handleNewTransactions_pairs_ordered`: positions 0 and 2 of the merge of
`[t1]` into the ascending view `[t2, t3]`. -/
theorem handleNewTransactions_pairs_ordered_witness :
    AllStamped ([t1] ++ [t2, t3]) ∧ (handleNewTransactions [t1] [t2, t3])[0]? = some t3 ∧
      (handleNewTransactions [t1] [t2, t3])[2]? = some t2 ∧ CreatedAtLe t2 t3 :=
  ⟨by decide, by decide, by decide,
    handleNewTransactions_pairs_ordered [t1] [t2, t3] (by decide) 0 2 t3 t2 (by decide)
      (by decide) (by decide)⟩

theorem filter_orderedInsert (k : Option Int) (a : Transaction) :
    ∀ l : List Transaction,
      (l.orderedInsert keepsBefore a).filter (hasCreatedAt k) = (a :: l).filter (hasCreatedAt k)
  | [] => by simp
  | b :: l => by
    simp only [List.orderedInsert]
    split_ifs with hab
    · rfl
    · have ih := filter_orderedInsert k a l
      have hne : ¬ (hasCreatedAt k a = true ∧ hasCreatedAt k b = true) := by
        rintro ⟨h1, h2⟩
        apply hab
        unfold hasCreatedAt at h1 h2
        have h1' : a.created_at = k := by simpa using h1
        have h2' : b.created_at = k := by simpa using h2
        unfold keepsBefore compareCreatedAt
        rw [h1', h2']
        cases k <;> simp
      by_cases ha : hasCreatedAt k a = true
      · have hb : hasCreatedAt k b = false := by
          cases hb : hasCreatedAt k b
          · rfl
          · exact absurd ⟨ha, hb⟩ hne
        simp only [List.filter_cons, ha, hb, if_true] at ih ⊢
        simpa using ih
      · have ha' : hasCreatedAt k a = false := by simpa using ha
        simp only [List.filter_cons, ha'] at ih ⊢
        simp only [Bool.false_eq_true, if_false] at ih ⊢
        rw [ih]

theorem filter_sortByCreatedAt (k : Option Int) :
    ∀ l : List Transaction,
      (sortByCreatedAt l).filter (hasCreatedAt k) = l.filter (hasCreatedAt k)
  | [] => by simp [sortByCreatedAt]
  | a :: l => by
    have ih := filter_sortByCreatedAt k l
    unfold sortByCreatedAt at ih ⊢
    simp only [List.insertionSort]
    rw [filter_orderedInsert, List.filter_cons, List.filter_cons, ih]

theorem mem_filter_hasCreatedAt {t : Transaction} {l : List Transaction} (h : t ∈ l) :
    t ∈ l.filter (hasCreatedAt t.created_at) :=
  List.mem_filter.mpr ⟨h, by simp [hasCreatedAt]⟩

theorem eq_of_sorted_of_filter_eq :
    ∀ l₁ l₂ : List Transaction, AllStamped l₁ → l₁.Pairwise NotOlder → l₂.Pairwise NotOlder →
      (∀ k, l₁.filter (hasCreatedAt k) = l₂.filter (hasCreatedAt k)) → l₁ = l₂
  | [], [], _, _, _, _ => rfl
  | [], y :: ys, _, _, _, hf => by
    have h := mem_filter_hasCreatedAt (List.mem_cons_self y ys)
    rw [← hf] at h
    simp at h
  | x :: xs, [], _, _, _, hf => by
    have h := mem_filter_hasCreatedAt (List.mem_cons_self x xs)
    rw [hf] at h
    simp at h
  | x :: xs, y :: ys, hst, h₁, h₂, hf => by
    have hy₁ : y ∈ x :: xs := by
      have h := mem_filter_hasCreatedAt (List.mem_cons_self y ys)
      rw [← hf] at h
      exact List.mem_of_mem_filter h
    have hx₂ : x ∈ y :: ys := by
      have h := mem_filter_hasCreatedAt (List.mem_cons_self x xs)
      rw [hf] at h
      exact List.mem_of_mem_filter h
    obtain ⟨tx, hx⟩ := Option.ne_none_iff_exists'.mp (hst x (List.mem_cons_self x xs))
    obtain ⟨ty, hy⟩ := Option.ne_none_iff_exists'.mp (hst y hy₁)
    have hle₁ : ty ≤ tx := by
      rcases List.mem_cons.mp hy₁ with rfl | hmem
      · rw [hx] at hy; exact le_of_eq (Option.some.inj hy).symm
      · exact (List.pairwise_cons.mp h₁).1 y hmem tx ty hx hy
    have hle₂ : tx ≤ ty := by
      rcases List.mem_cons.mp hx₂ with rfl | hmem
      · rw [hx] at hy; exact le_of_eq (Option.some.inj hy)
      · exact (List.pairwise_cons.mp h₂).1 x hmem ty tx hy hx
    have hkey : y.created_at = x.created_at := by rw [hx, hy, le_antisymm hle₁ hle₂]
    have hhead := hf x.created_at
    have hcx : hasCreatedAt x.created_at x = true := by simp [hasCreatedAt]
    have hcy : hasCreatedAt x.created_at y = true := by simp [hasCreatedAt, hkey]
    simp only [List.filter_cons, hcx, hcy, if_true] at hhead
    have hxy : x = y := (List.cons.inj hhead).1
    subst hxy
    have htail : ∀ k, xs.filter (hasCreatedAt k) = ys.filter (hasCreatedAt k) := by
      intro k
      have hk := hf k
      by_cases hc : hasCreatedAt k x = true
      · simp only [List.filter_cons, hc, if_true] at hk
        exact (List.cons.inj hk).2
      · simpa only [List.filter_cons, hc, if_false] using hk
    have hst' : AllStamped xs := fun t ht => hst t (List.mem_cons_of_mem _ ht)
    rw [eq_of_sorted_of_filter_eq xs ys hst' (List.pairwise_cons.mp h₁).2
      (List.pairwise_cons.mp h₂).2 htail]

theorem isStableSortDesc_sortByCreatedAt {l : List Transaction} (h : AllStamped l) :
    IsStableSortDesc l (sortByCreatedAt l) where
  perm := perm_sortByCreatedAt l
  sorted := (pairwise_sortByCreatedAt h).imp (fun hab => notOlder_of_keepsBefore hab)
  stable := fun k => filter_sortByCreatedAt k l

theorem isStableSortDesc_unique {l out₁ out₂ : List Transaction} (h : AllStamped l)
    (h₁ : IsStableSortDesc l out₁) (h₂ : IsStableSortDesc l out₂) : out₁ = out₂ :=
  eq_of_sorted_of_filter_eq out₁ out₂ (fun t ht => h t (h₁.perm.mem_iff.mp ht)) h₁.sorted
    h₂.sorted (fun k => (h₁.stable k).trans (h₂.stable k).symm)

/-- C4 as stated fails: when an entry has no `created_at` the returned view need
not be the first 100 entries of any stable sort by `created_at` descending; the
merge of `[mkTx 1 5]` into `[mkUnstamped 2, mkTx 3 7]` is left in ascending order. -/
theorem merge_is_not_sorted_without_created_at :
    ¬ ∃ out : List Transaction,
        IsStableSortDesc ([mkTx 1 5] ++ [mkUnstamped 2, mkTx 3 7]) out ∧
          handleNewTransactions [mkTx 1 5] [mkUnstamped 2, mkTx 3 7] = out.take 100 := by
  rintro ⟨out, hs, h⟩
  have hlen : out.length = 3 := hs.perm.length_eq
  have htake : out.take 100 = out := List.take_of_length_le (by omega)
  have hval : handleNewTransactions [mkTx 1 5] [mkUnstamped 2, mkTx 3 7]
      = [mkTx 1 5, mkUnstamped 2, mkTx 3 7] := by decide
  rw [htake, hval] at h
  have hsorted := hs.sorted
  rw [← h] at hsorted
  simp [NotOlder, mkTx, mkUnstamped] at hsorted

/-- C4, amended: when every transaction of the batch and of the previous view has
a `created_at`, the concatenation `data ++ prev` has exactly one stable sort by
`created_at` descending, and `handleNewTransactions` returns its first 100
entries. -/
theorem handleNewTransactions_eq_take_stable_sort (data prev : List Transaction)
    (hst : AllStamped (data ++ prev)) :
    ∃ out : List Transaction, IsStableSortDesc (data ++ prev) out ∧
      (∀ out', IsStableSortDesc (data ++ prev) out' → out' = out) ∧
      handleNewTransactions data prev = out.take 100 :=
  ⟨sortByCreatedAt (data ++ prev), isStableSortDesc_sortByCreatedAt hst,
    fun _ h => isStableSortDesc_unique hst h (isStableSortDesc_sortByCreatedAt hst), rfl⟩

/-- Instance of `handleNewTransactions_eq_take_stable_sort`: the view `[t1, t2]` merged
with the batch `[t3]` gives `[t3, t1, t2]`. -/
theorem handleNewTransactions_eq_take_stable_sort_witness :
    AllStamped ([t3] ++ [t1, t2]) ∧ handleNewTransactions [t3] [t1, t2] = [t3, t1, t2] ∧
      ∃ out : List Transaction, IsStableSortDesc ([t3] ++ [t1, t2]) out ∧
        (∀ out', IsStableSortDesc ([t3] ++ [t1, t2]) out' → out' = out) ∧
        handleNewTransactions [t3] [t1, t2] = out.take 100 :=
  ⟨by decide, by decide, handleNewTransactions_eq_take_stable_sort [t3] [t1, t2] (by decide)⟩

theorem feed_append_singleton (batches : List (List Transaction)) (batch : List Transaction) :
    feed (batches ++ [batch]) = handleNewTransactions batch (feed batches) := by
  simp [feed, List.foldl_append]

theorem length_feed (batches : List (List Transaction)) :
    (feed batches).length = min 100 batches.flatten.length := by
  induction batches using List.reverseRecOn with
  | nil => simp [feed]
  | append_singleton bs b ih =>
    rw [feed_append_singleton, length_handleNewTransactions, ih]
    simp only [List.flatten_append, List.length_append, List.flatten_cons, List.flatten_nil,
      List.append_nil]
    omega

/-- One merge keeps the split of what was delivered into the view and the
entries dropped so far, every dropped entry being at most as recent as every
entry of the view. -/
theorem merge_keeps_most_recent (batch view dropped : List Transaction)
    (hb : AllStamped batch) (hv : AllStamped view)
    (hle : ∀ d ∈ dropped, ∀ u ∈ view, keepsBefore u d)
    (hfull : dropped ≠ [] → view.length = 100) :
    (∀ d ∈ (sortByCreatedAt (batch ++ view)).drop 100 ++ dropped,
        ∀ u ∈ handleNewTransactions batch view, keepsBefore u d) ∧
      ((sortByCreatedAt (batch ++ view)).drop 100 ++ dropped ≠ [] →
        (handleNewTransactions batch view).length = 100) := by
  have hst : AllStamped (batch ++ view) := by
    intro t ht
    rcases List.mem_append.mp ht with h | h
    · exact hb t h
    · exact hv t h
  have hsorted := pairwise_sortByCreatedAt hst
  have hsplit := List.take_append_drop 100 (sortByCreatedAt (batch ++ view))
  rw [← hsplit, List.pairwise_append] at hsorted
  have hcross := hsorted.2.2
  constructor
  · intro d hd u hu
    rcases List.mem_append.mp hd with hd | hd
    · exact hcross u hu d hd
    · by_contra hnot
      have hlen : view.length = 100 := hfull (List.ne_nil_of_mem hd)
      -- every entry of the old view is strictly more recent than `u`
      let newer : Transaction → Bool := fun w => decide (¬ keepsBefore u w)
      have hview : view.countP newer = view.length := by
        rw [List.countP_eq_length]
        intro w hw
        have hwd := hle d hd w hw
        simp only [newer, decide_eq_true_eq]
        intro huw
        exact hnot (keepsBefore_trans (hv w hw) huw hwd)
      have hdrop : ((sortByCreatedAt (batch ++ view)).drop 100).countP newer = 0 := by
        rw [List.countP_eq_zero]
        intro w hw
        simp only [newer, decide_eq_true_eq, not_not]
        exact hcross u hu w hw
      have hu_not : ¬ newer u = true := by
        simp only [newer, decide_eq_true_eq, not_not]
        unfold keepsBefore compareCreatedAt
        cases u.created_at <;> simp
      have htake : ((sortByCreatedAt (batch ++ view)).take 100).countP newer
          < ((sortByCreatedAt (batch ++ view)).take 100).length := by
        apply lt_of_le_of_ne (List.countP_le_length _)
        intro heq
        exact hu_not ((List.countP_eq_length.mp heq) u hu)
      have htotal : (sortByCreatedAt (batch ++ view)).countP newer
          = (batch ++ view).countP newer :=
        (perm_sortByCreatedAt (batch ++ view)).countP_eq newer
      rw [← hsplit, List.countP_append, hdrop, List.countP_append, hview, hlen] at htotal
      have hbound : ((sortByCreatedAt (batch ++ view)).take 100).length ≤ 100 :=
        List.length_take_le _ _
      omega
  · intro hne
    rw [length_handleNewTransactions]
    by_cases hd : dropped = []
    · subst hd
      rw [List.append_nil] at hne
      have hpos : 0 < ((sortByCreatedAt (batch ++ view)).drop 100).length :=
        List.length_pos.mpr hne
      rw [List.length_drop, length_sortByCreatedAt, List.length_append] at hpos
      omega
    · have := hfull hd
      omega

theorem feed_split (batches : List (List Transaction)) (hst : AllStamped batches.flatten) :
    ∃ dropped : List Transaction,
      (feed batches ++ dropped).Perm batches.flatten ∧
      (∀ d ∈ dropped, ∀ u ∈ feed batches, keepsBefore u d) ∧
      (dropped ≠ [] → (feed batches).length = 100) := by
  induction batches using List.reverseRecOn with
  | nil => exact ⟨[], by simp [feed], by simp, by simp⟩
  | append_singleton bs b ih =>
    have hflat : (bs ++ [b]).flatten = bs.flatten ++ b := by simp
    rw [hflat] at hst ⊢
    have hbs : AllStamped bs.flatten := fun t ht => hst t (List.mem_append_left _ ht)
    have hb : AllStamped b := fun t ht => hst t (List.mem_append_right _ ht)
    obtain ⟨dropped, hperm, hle, hfull⟩ := ih hbs
    have hv : AllStamped (feed bs) :=
      fun t ht => hbs t (hperm.subset (List.mem_append_left _ ht))
    obtain ⟨hle', hfull'⟩ := merge_keeps_most_recent b (feed bs) dropped hb hv hle hfull
    refine ⟨(sortByCreatedAt (b ++ feed bs)).drop 100 ++ dropped, ?_, ?_, ?_⟩
    · rw [feed_append_singleton]
      unfold handleNewTransactions
      rw [← List.append_assoc, List.take_append_drop]
      have h₁ : (sortByCreatedAt (b ++ feed bs) ++ dropped).Perm (b ++ feed bs ++ dropped) :=
        (perm_sortByCreatedAt _).append_right _
      have h₂ : (b ++ (feed bs ++ dropped)).Perm (b ++ bs.flatten) := hperm.append_left _
      rw [List.append_assoc] at h₁
      exact (h₁.trans h₂).trans List.perm_append_comm
    · rw [feed_append_singleton]; exact hle'
    · rw [feed_append_singleton]; exact hfull'

/-- C8: starting from the empty view, after feeding batches whose transactions
have pairwise distinct ids and all carry a `created_at`, the view has length
`min 100 n` for `n` the number of transactions delivered, and every delivered
transaction that is absent from the view is at most as recent as every entry of
the view. -/
theorem feed_retains_most_recent (batches : List (List Transaction))
    (_hid : NoDuplicateIds batches.flatten) (hst : AllStamped batches.flatten) :
    (feed batches).length = min 100 batches.flatten.length ∧
      ∀ t ∈ batches.flatten, t ∉ feed batches → ∀ u ∈ feed batches, CreatedAtLe t u := by
  refine ⟨length_feed batches, ?_⟩
  obtain ⟨dropped, hperm, hle, _⟩ := feed_split batches hst
  intro t ht hnot u hu
  have htd : t ∈ dropped := by
    rcases List.mem_append.mp (hperm.mem_iff.mpr ht) with h | h
    · exact absurd h hnot
    · exact h
  exact createdAtLe_of_keepsBefore (hst u (hperm.subset (List.mem_append_left _ hu)))
    (hst t ht) (hle t htd u hu)

set_option maxRecDepth 100000 in
/-- Instance of `feed_retains_most_recent`: 105 transactions delivered one per call leave
a view of length 100 that holds the 100 most recent ones. -/
theorem feed_retains_most_recent_witness :
    NoDuplicateIds batches105.flatten ∧ AllStamped batches105.flatten ∧
      feed batches105 = newest100 ∧
      (feed batches105).length = min 100 batches105.flatten.length ∧
      ∀ t ∈ batches105.flatten, t ∉ feed batches105 →
        ∀ u ∈ feed batches105, CreatedAtLe t u :=
  ⟨by decide, by decide, by decide,
    feed_retains_most_recent batches105 (by decide) (by decide)⟩

/-- C11: after `handleClose` the hook is disconnected and the error, the view and
the loading flag are those of the previous state; after `handleError` the hook
is disconnected and the error is the fixed message, whatever the event, with
the view and the loading flag unchanged. -/
theorem handleClose_handleError_effect (s : HookState) (event : String) :
    ((handleClose s).isConnected = false ∧ (handleClose s).error = s.error ∧
        (handleClose s).transactions = s.transactions ∧
        (handleClose s).isLoading = s.isLoading) ∧
      ((handleError event s).isConnected = false ∧
        (handleError event s).error = some "WebSocket connection error" ∧
        (handleError event s).transactions = s.transactions ∧
        (handleError event s).isLoading = s.isLoading) := by
  simp [handleClose, handleError]

/-- C19: when every transaction of the batch and of the previous view has a
`created_at`, the view returned by `handleNewTransactions` is in non-increasing
order of `created_at` over all of its pairs, whatever the order of the previous
view. -/
theorem handleNewTransactions_sorted_of_allStamped (data prev : List Transaction)
    (hst : AllStamped (data ++ prev)) :
    AllPairsOrdered (handleNewTransactions data prev) ∧
      AllStamped (handleNewTransactions data prev) := by
  constructor
  · unfold AllPairsOrdered handleNewTransactions
    have h : ((sortByCreatedAt (data ++ prev)).take 100).Pairwise keepsBefore :=
      (pairwise_sortByCreatedAt hst).sublist (List.take_sublist _ _)
    exact h.imp (fun hab => notOlder_of_keepsBefore hab)
  · intro t ht
    exact hst t (mem_of_mem_handleNewTransactions ht)

/-- Instance of `handleNewTransactions_sorted_of_allStamped`: a previous view in ascending
order, as `handleInitialData` may have left it, is put in descending order by
the next merge. -/
theorem handleNewTransactions_sorted_of_allStamped_witness :
    AllStamped ([t1] ++ [t2, t3]) ∧ handleNewTransactions [t1] [t2, t3] = [t3, t1, t2] ∧
      AllPairsOrdered (handleNewTransactions [t1] [t2, t3]) :=
  ⟨by decide, by decide,
    (handleNewTransactions_sorted_of_allStamped [t1] [t2, t3] (by decide)).1⟩

/-- C20: the view returned by `handleNewTransactions` has length
`min 100 (|data| + |prev|)`, is contained, as a multiset, in `data ++ prev`, and
is a permutation of `data ++ prev` when the two together hold at most 100
entries. -/
theorem handleNewTransactions_subperm (data prev : List Transaction) :
    (handleNewTransactions data prev).length = min 100 (data.length + prev.length) ∧
      (handleNewTransactions data prev).Subperm (data ++ prev) ∧
      (data.length + prev.length ≤ 100 →
        (handleNewTransactions data prev).Perm (data ++ prev)) := by
  refine ⟨length_handleNewTransactions data prev, ?_, ?_⟩
  · exact (List.take_sublist 100 _).subperm.trans (perm_sortByCreatedAt (data ++ prev)).subperm
  · intro hlen
    have htake : handleNewTransactions data prev = sortByCreatedAt (data ++ prev) := by
      unfold handleNewTransactions
      apply List.take_of_length_le
      rw [length_sortByCreatedAt, List.length_append]
      exact hlen
    rw [htake]
    exact perm_sortByCreatedAt (data ++ prev)

/-- Instance of `handleNewTransactions_subperm`: the batch `[t3]` merged into `[t1, t2]`. -/
theorem handleNewTransactions_subperm_witness :
    [t3].length + [t1, t2].length ≤ 100 ∧
      (handleNewTransactions [t3] [t1, t2]).Perm ([t3] ++ [t1, t2]) :=
  ⟨by decide, (handleNewTransactions_subperm [t3] [t1, t2]).2.2 (by decide)⟩

/-- C15, evaluated on the code: for the value `NaN`, which is not a valid number,
`formatCurrency` returns "₹NaN" and `formatPercentage` returns "NaN%" instead of
"N/A", and `formatNumber` returns what `toLocaleString` prints for `NaN`; only
`null` and `undefined` give "N/A". -/
theorem formatters_on_nan (rt : Runtime) :
    formatCurrency rt (.number .nan) 2 = "₹NaN" ∧
      formatPercentage rt (.number .nan) 2 = "NaN%" ∧
      formatNumber rt (.number .nan) = rt.localeString .nan ∧
      formatCurrency rt (.number .nan) 2 ≠ "N/A" ∧
      formatPercentage rt (.number .nan) 2 ≠ "N/A" ∧
      formatCurrency rt .null 2 = "N/A" ∧ formatCurrency rt .undefined 2 = "N/A" := by
  refine ⟨rfl, rfl, rfl, ?_, ?_, rfl, rfl⟩
  · show "₹NaN" ≠ "N/A"
    decide
  · show "NaN%" ≠ "N/A"
    decide

/-- C16: `getSourceColor` returns "primary" exactly for 'NSE', "secondary"
exactly for 'BSE' and "default" for every other input, 'NSDL' included; its
result is always one of the three. -/
theorem getSourceColor_total (source : JsValue) :
    (getSourceColor source = "primary" ↔ source = .string "NSE") ∧
      (getSourceColor source = "secondary" ↔ source = .string "BSE") ∧
      (getSourceColor source = "default" ↔
        (source ≠ .string "NSE" ∧ source ≠ .string "BSE")) ∧
      getSourceColor (.string "NSDL") = "default" ∧
      (getSourceColor source = "primary" ∨ getSourceColor source = "secondary" ∨
        getSourceColor source = "default") := by
  have h₁ : ("primary" : String) ≠ "secondary" := by decide
  have h₂ : ("primary" : String) ≠ "default" := by decide
  have h₃ : ("secondary" : String) ≠ "default" := by decide
  have h₄ : (JsValue.string "NSE") ≠ .string "BSE" := by decide
  by_cases hn : source = .string "NSE"
  · subst hn
    simp [getSourceColor, h₁, h₂]
  · by_cases hb : source = .string "BSE"
    · subst hb
      simp [getSourceColor, h₁.symm, h₃]
    · refine ⟨?_, ?_, ?_, by decide, ?_⟩ <;>
        simp [getSourceColor, hn, hb, h₂.symm, h₃.symm]

theorem jsLe_iff (a b : JsNumber) : jsLe a b = true ↔ NumberLe a b := by
  constructor
  · intro h
    cases a <;> cases b <;> simp [jsLe] at h
    · exact .negInfNegInf
    · exact .negInfFinite _
    · exact .negInfPosInf
    · exact .finite h
    · exact .finitePosInf _
    · exact .posInfPosInf
  · intro h
    cases h <;> simp [jsLe]
    assumption

theorem matchesBond_iff (rt : Runtime) (searchTerm : String) (filters : Filters) (bond : Bond)
    (y : JsNumber) (hy : bond.yield_to_maturity = .number y) :
    matchesBond rt searchTerm filters bond = true ↔
      ContainsTerm rt searchTerm bond ∧ SourceSelected filters bond ∧
        YieldWithinBounds rt filters bond := by
  have hnum : toNumber rt bond.yield_to_maturity = y := by rw [hy]; rfl
  unfold matchesBond ContainsTerm SourceSelected YieldWithinBounds includes jsGe
  simp only [Bool.and_eq_true, Bool.or_eq_true, decide_eq_true_eq, beq_iff_eq, hnum, jsLe_iff,
    hy, JsValue.number.injEq, exists_eq_left']
  constructor
  · rintro ⟨⟨hs, hsrc⟩, hmin, hmax⟩
    refine ⟨hs, hsrc.symm, ?_, ?_⟩
    · intro hne
      exact hmin.resolve_left hne
    · intro hne
      exact hmax.resolve_left hne
  · rintro ⟨hs, hsrc, hmin, hmax⟩
    refine ⟨⟨hs, hsrc.symm⟩, ?_, ?_⟩
    · by_cases h : filters.minYield = ""
      · exact Or.inl h
      · exact Or.inr (hmin h)
    · by_cases h : filters.maxYield = ""
      · exact Or.inl h
      · exact Or.inr (hmax h)

/-- On bonds that all have a number as their yield, `filteredBonds` is the
sublist of `bonds`, in the same order, of exactly the bonds whose isin or name
contains the search term case-insensitively, whose exchange is the selected
source unless the source is 'all', and whose yield respects each bound that is
not empty; with the default inputs it is `bonds`, whatever the yields. -/
theorem filteredBonds_of_numericYields (rt : Runtime) (bonds : List Bond)
    (searchTerm : String) (filters : Filters) (hnum : NumericYields bonds) :
    (filteredBonds rt bonds searchTerm filters).Sublist bonds ∧
      (∀ keep : Bond → Bool,
        (∀ b, keep b = true ↔ ContainsTerm rt searchTerm b ∧ SourceSelected filters b ∧
          YieldWithinBounds rt filters b) →
        filteredBonds rt bonds searchTerm filters = bonds.filter keep) ∧
      (∀ allBonds : List Bond,
        rt.toLowerCase "" = "" → filteredBonds rt allBonds "" defaultFilters = allBonds) := by
  refine ⟨List.filter_sublist _, ?_, ?_⟩
  · intro keep hkeep
    unfold filteredBonds
    apply List.filter_congr
    intro b hb
    obtain ⟨y, hy⟩ := hnum b hb
    rw [Bool.eq_iff_iff, matchesBond_iff rt searchTerm filters b y hy, hkeep]
  · intro allBonds hlower
    unfold filteredBonds
    rw [List.filter_eq_self]
    intro b _
    have hsearch : includes (rt.toLowerCase b.isin) (rt.toLowerCase "") = true := by
      unfold includes
      rw [hlower, decide_eq_true_eq]
      exact ⟨[], (rt.toLowerCase b.isin).data, by simp⟩
    simp [matchesBond, hsearch, defaultFilters]

/-- The sample bonds under a lower bound of 8: the bond with yield 7 is dropped
and the bond with yield 8 is kept. -/
theorem filteredBonds_sample_lower_bound :
    filteredBonds sampleRuntime sampleBonds ""
        { source := "all", minYield := "8", maxYield := "" } =
      [{ isin := "INE002A08534", name := "Reliance 2028", exchange := "BSE",
         yield_to_maturity := .number (.finite 8) }] := by
  have hparse : sampleRuntime.parseFloat "8" = .finite 8 := by
    simp [sampleRuntime, wholeNumber, Char.isDigit]
  have hlower : sampleRuntime.toLowerCase "" = "" := by decide
  have hsearch : ∀ s : String, includes s (sampleRuntime.toLowerCase "") = true := by
    intro s
    unfold includes
    rw [hlower, decide_eq_true_eq]
    exact ⟨[], s.data, by simp⟩
  have h₇ : jsGe (.finite 7) (.finite 8) = false := by
    simp [jsGe, jsLe]
    norm_num
  have h₈ : jsGe (.finite 8) (.finite 8) = true := by
    simp [jsGe, jsLe]
  simp [filteredBonds, matchesBond, sampleBonds, hsearch, hparse, toNumber, h₇, h₈]

/-- C17, evaluated on the code: a bond whose yield is `null` is kept when the
upper bound is 5, although it has no yield that is at most 5; whatever the
runtime and the filters, the test treats a `null` yield like a yield of 0. -/
theorem filteredBonds_keeps_null_yield :
    filteredBonds sampleRuntime [nullYieldBond] "" maxFiveFilters = [nullYieldBond] ∧
      ¬ YieldWithinBounds sampleRuntime maxFiveFilters nullYieldBond ∧
      ∀ (rt : Runtime) (searchTerm : String) (filters : Filters) (isin name exchange : String),
        matchesBond rt searchTerm filters
            { isin := isin, name := name, exchange := exchange, yield_to_maturity := .null } =
          matchesBond rt searchTerm filters
            { isin := isin, name := name, exchange := exchange,
              yield_to_maturity := .number (.finite 0) } := by
  refine ⟨?_, ?_, ?_⟩
  · have hparse : sampleRuntime.parseFloat "5" = .finite 5 := by
      simp [sampleRuntime, wholeNumber, Char.isDigit]
    have hlower : sampleRuntime.toLowerCase "" = "" := by decide
    have hsearch : includes (sampleRuntime.toLowerCase "INE003A01024")
        (sampleRuntime.toLowerCase "") = true := by
      unfold includes
      rw [hlower, decide_eq_true_eq]
      exact ⟨[], (sampleRuntime.toLowerCase "INE003A01024").data, by simp⟩
    have hle : jsLe (.finite 0) (.finite 5) = true := by
      simp [jsLe]
    simp [filteredBonds, matchesBond, hsearch, maxFiveFilters, hparse, toNumber,
      nullYieldBond, hle]
  · intro h
    obtain ⟨y, hy, _⟩ := h.2 (by decide)
    simp [nullYieldBond] at hy
  · intro rt searchTerm filters isin name exchange
    rfl

theorem inTimeRange_iff (timeRange : String) (now : Int) (t : BondTransaction)
    (ht : t.trade_date ≠ none) :
    inTimeRange timeRange now t = true ↔ WithinWindow timeRange now t := by
  obtain ⟨date, hd⟩ := Option.ne_none_iff_exists'.mp ht
  unfold inTimeRange WithinWindow windowDays diffAtMost
  rw [hd]
  split_ifs <;> simp

theorem tradeDateOrder_iff {a b : BondTransaction} {x y : Int} (ha : a.trade_date = some x)
    (hb : b.trade_date = some y) : tradeDateOrder a b ↔ x ≤ y := by
  unfold tradeDateOrder compareTradeDate
  rw [ha, hb]
  simp

theorem pairwise_orderedInsert_tradeDate (a : BondTransaction) (ha : a.trade_date ≠ none) :
    ∀ l : List BondTransaction, AllDated l → l.Pairwise tradeDateOrder →
      (l.orderedInsert tradeDateOrder a).Pairwise tradeDateOrder
  | [], _, _ => by simp
  | b :: l, hl, hs => by
    obtain ⟨x, hx⟩ := Option.ne_none_iff_exists'.mp ha
    obtain ⟨y, hy⟩ := Option.ne_none_iff_exists'.mp (hl b (List.mem_cons_self b l))
    have hl' : AllDated l := fun t ht => hl t (List.mem_cons_of_mem _ ht)
    have hbl := List.pairwise_cons.mp hs
    simp only [List.orderedInsert]
    split_ifs with hab
    · refine List.pairwise_cons.mpr ⟨?_, hs⟩
      intro c hc
      rcases List.mem_cons.mp hc with rfl | hc
      · exact hab
      · obtain ⟨z, hz⟩ := Option.ne_none_iff_exists'.mp (hl' c hc)
        have h₁ := (tradeDateOrder_iff hx hy).mp hab
        have h₂ := (tradeDateOrder_iff hy hz).mp (hbl.1 c hc)
        exact (tradeDateOrder_iff hx hz).mpr (le_trans h₁ h₂)
    · refine List.pairwise_cons.mpr ⟨?_, pairwise_orderedInsert_tradeDate a ha l hl' hbl.2⟩
      intro c hc
      rcases (List.mem_orderedInsert tradeDateOrder).mp hc with rfl | hc
      · have h₁ : ¬ x ≤ y := fun h => hab ((tradeDateOrder_iff hx hy).mpr h)
        exact (tradeDateOrder_iff hy hx).mpr (by omega)
      · exact hbl.1 c hc

theorem pairwise_insertionSort_tradeDate :
    ∀ l : List BondTransaction, AllDated l → (l.insertionSort tradeDateOrder).Pairwise tradeDateOrder
  | [], _ => by simp
  | a :: l, hl => by
    have hl' : AllDated l := fun t ht => hl t (List.mem_cons_of_mem _ ht)
    have hsorted : AllDated (l.insertionSort tradeDateOrder) :=
      fun t ht => hl' t ((List.perm_insertionSort tradeDateOrder l).mem_iff.mp ht)
    simp only [List.insertionSort]
    exact pairwise_orderedInsert_tradeDate a (hl a (List.mem_cons_self a l)) _ hsorted
      (pairwise_insertionSort_tradeDate l hl')

theorem tradeDateLe_of_order {a b : BondTransaction} (ha : a.trade_date ≠ none)
    (hb : b.trade_date ≠ none) (h : tradeDateOrder a b) : TradeDateLe a b := by
  obtain ⟨x, hx⟩ := Option.ne_none_iff_exists'.mp ha
  obtain ⟨y, hy⟩ := Option.ne_none_iff_exists'.mp hb
  exact ⟨x, y, hx, hy, (tradeDateOrder_iff hx hy).mp h⟩

theorem allDated_filteredTransactions {transactions : List BondTransaction} (h : AllDated transactions)
    (now : Int) (timeRange : String) : AllDated (filteredTransactions transactions now timeRange) :=
  fun t ht => h t ((List.perm_insertionSort tradeDateOrder transactions).mem_iff.mp
    (List.mem_of_mem_filter ht))

theorem toPricePoints_of_allDated (rt : Runtime) :
    ∀ l : List BondTransaction, AllDated l →
      ∃ points, toPricePoints rt l = .ok points ∧ points.length = l.length
  | [], _ => ⟨[], rfl, rfl⟩
  | t :: rest, hl => by
    obtain ⟨date, hd⟩ := Option.ne_none_iff_exists'.mp (hl t (List.mem_cons_self t rest))
    obtain ⟨points, hp, hlen⟩ :=
      toPricePoints_of_allDated rt rest (fun u hu => hl u (List.mem_cons_of_mem _ hu))
    refine ⟨pricePointAt rt date t :: points, ?_, by simp [hlen]⟩
    simp [toPricePoints, toPricePoint, hd, hp]

theorem toPricePoints_sublist (rt : Runtime) {short long : List BondTransaction}
    (h : short.Sublist long) :
    ∀ ps pl, toPricePoints rt short = .ok ps → toPricePoints rt long = .ok pl → ps.Sublist pl := by
  induction h with
  | slnil =>
    intro ps pl hs hl
    simp [toPricePoints] at hs hl
    subst hs
    exact List.nil_sublist _
  | @cons l₁ l₂ a _ ih =>
    intro ps pl hs hl
    simp only [toPricePoints] at hl
    cases hpa : toPricePoint rt a with
    | error e => simp [hpa] at hl
    | ok pa =>
      cases hrest : toPricePoints rt l₂ with
      | error e => simp [hpa, hrest] at hl
      | ok rest =>
        simp [hpa, hrest] at hl
        subst hl
        exact (ih ps rest hs hrest).cons pa
  | @cons₂ l₁ l₂ a _ ih =>
    intro ps pl hs hl
    simp only [toPricePoints] at hs hl
    cases hpa : toPricePoint rt a with
    | error e => simp [hpa] at hl
    | ok pa =>
      cases hr₁ : toPricePoints rt l₁ with
      | error e => simp [hpa, hr₁] at hs
      | ok rest₁ =>
        cases hr₂ : toPricePoints rt l₂ with
        | error e => simp [hpa, hr₂] at hl
        | ok rest₂ =>
          simp [hpa, hr₁] at hs
          simp [hpa, hr₂] at hl
          subst hs hl
          exact (ih rest₁ rest₂ hr₁ hr₂).cons₂ pa

theorem withinWindow_mono {shorter longer : String} (h : WindowLe shorter longer) (now : Int)
    (t : BondTransaction) (hw : WithinWindow shorter now t) : WithinWindow longer now t := by
  obtain ⟨date, hd, hw⟩ := hw
  refine ⟨date, hd, ?_⟩
  intro days hdays
  unfold WindowLe at h
  rw [hdays] at h
  cases hs : windowDays shorter with
  | none => rw [hs] at h; exact absurd h (by simp)
  | some a =>
    rw [hs] at h
    have := hw a hs
    have hle : a ≤ days := h
    omega

theorem preparePriceHistoryData_eq (rt : Runtime) (transactions : List BondTransaction)
    (now : Int) (timeRange : String) :
    preparePriceHistoryData rt transactions now timeRange =
      toPricePoints rt (filteredTransactions transactions now timeRange) := by
  unfold preparePriceHistoryData
  split_ifs with h
  · rw [List.length_eq_zero.mp h]; rfl
  · rfl

/-- On transactions that all have a date, `preparePriceHistoryData` returns `[]`
when there are none, and otherwise the points of the transactions whose age is
at most the window of the range, one point each, in ascending order of
`trade_date`; the points of a range are a sublist of the points of every range
whose window is at least as long. -/
theorem preparePriceHistoryData_of_allDated (rt : Runtime)
    (transactions : List BondTransaction) (now : Int) (timeRange : String)
    (hdated : AllDated transactions) :
    preparePriceHistoryData rt [] now timeRange = .ok [] ∧
      (∃ kept : List BondTransaction, ∃ points : List PricePoint,
        (∀ keep : BondTransaction → Bool,
          (∀ t, keep t = true ↔ WithinWindow timeRange now t) →
          kept.Perm (transactions.filter keep)) ∧
        kept.Pairwise TradeDateLe ∧
        preparePriceHistoryData rt transactions now timeRange = .ok points ∧
        toPricePoints rt kept = .ok points ∧ points.length = kept.length) ∧
      (∀ longer : String, WindowLe timeRange longer →
        ∃ ps pl, preparePriceHistoryData rt transactions now timeRange = .ok ps ∧
          preparePriceHistoryData rt transactions now longer = .ok pl ∧ ps.Sublist pl) := by
  have hall := fun r => allDated_filteredTransactions hdated now r
  refine ⟨rfl, ?_, ?_⟩
  · obtain ⟨points, hp, hlen⟩ :=
      toPricePoints_of_allDated rt _ (hall timeRange)
    refine ⟨filteredTransactions transactions now timeRange, points, ?_, ?_, ?_, hp, hlen⟩
    · intro keep hkeep
      unfold filteredTransactions
      have hperm := (List.perm_insertionSort tradeDateOrder transactions).filter
        (inTimeRange timeRange now)
      refine hperm.trans (List.Perm.of_eq ?_)
      apply List.filter_congr
      intro t ht
      rw [Bool.eq_iff_iff, inTimeRange_iff timeRange now t (hdated t ht), hkeep]
    · have hsorted : ((transactions.insertionSort tradeDateOrder).filter
          (inTimeRange timeRange now)).Pairwise tradeDateOrder :=
        (pairwise_insertionSort_tradeDate transactions hdated).sublist (List.filter_sublist _)
      have hmem : ∀ t ∈ (transactions.insertionSort tradeDateOrder).filter
          (inTimeRange timeRange now), t.trade_date ≠ none := hall timeRange
      exact List.Pairwise.imp_of_mem
        (fun {a b} ha hb hab => tradeDateLe_of_order (hmem a ha) (hmem b hb) hab) hsorted
    · rw [preparePriceHistoryData_eq]; exact hp
  · intro longer hle
    obtain ⟨ps, hps, _⟩ := toPricePoints_of_allDated rt _ (hall timeRange)
    obtain ⟨pl, hpl, _⟩ := toPricePoints_of_allDated rt _ (hall longer)
    refine ⟨ps, pl, by rw [preparePriceHistoryData_eq]; exact hps,
      by rw [preparePriceHistoryData_eq]; exact hpl, ?_⟩
    apply toPricePoints_sublist rt _ ps pl hps hpl
    unfold filteredTransactions
    have hsorted_dated : ∀ t ∈ transactions.insertionSort tradeDateOrder, t.trade_date ≠ none :=
      fun t ht => hdated t ((List.perm_insertionSort tradeDateOrder transactions).mem_iff.mp ht)
    have h₁ : (transactions.insertionSort tradeDateOrder).filter (inTimeRange timeRange now) =
        (transactions.insertionSort tradeDateOrder).filter
          (fun t => inTimeRange timeRange now t && inTimeRange longer now t) := by
      apply List.filter_congr
      intro t ht
      by_cases hin : inTimeRange timeRange now t = true
      · have hw := (inTimeRange_iff timeRange now t (hsorted_dated t ht)).mp hin
        have hl := (inTimeRange_iff longer now t (hsorted_dated t ht)).mpr
          (withinWindow_mono hle now t hw)
        simp [hin, hl]
      · simp [hin]
    rw [h₁]
    apply List.monotone_filter_right
    intro t ht
    simp only [Bool.and_eq_true] at ht
    exact ht.2

/-- The sample transactions on day 101: the week range keeps days 99 and 100 and
the quarter range keeps days 40, 99 and 100, both in ascending order. -/
theorem filteredTransactions_sample :
    filteredTransactions sampleTrades (101 * 86400000) "1W" = [tradeOnDay 99, tradeOnDay 100] ∧
      filteredTransactions sampleTrades (101 * 86400000) "3M" =
        [tradeOnDay 40, tradeOnDay 99, tradeOnDay 100] := by
  decide

/-- C18, evaluated on the code: with the transactions of day 100, of no date and
of day 99, in that order, and the range 1W on day 101, the comparator answers
`NaN` against the undated transaction, nothing is moved, and the two points
come out with day 100 in front of day 99, in descending order. -/
theorem priceHistory_descending_with_undated (rt : Runtime) :
    filteredTransactions gapTrades (101 * 86400000) "1W" = [tradeOnDay 100, tradeOnDay 99] ∧
      preparePriceHistoryData rt gapTrades (101 * 86400000) "1W" =
        .ok [pricePointAt rt (100 * 86400000) (tradeOnDay 100),
          pricePointAt rt (99 * 86400000) (tradeOnDay 99)] ∧
      ¬ TradeDateLe (tradeOnDay 100) (tradeOnDay 99) := by
  have hf : filteredTransactions gapTrades (101 * 86400000) "1W"
      = [tradeOnDay 100, tradeOnDay 99] := by decide
  refine ⟨hf, ?_, ?_⟩
  · unfold preparePriceHistoryData
    rw [hf]
    rfl
  · rintro ⟨x, y, hx, hy, hxy⟩
    simp [tradeOnDay] at hx hy
    omega

/-- C12: `connect()` on a connector that is connected or connecting returns the
connector unchanged, fires no event and opens no transport; hence a second
`connect()` right after a first one changes nothing. -/
theorem connect_idempotent (c : Connector)
    (h : c.state = .connected ∨ c.state = .connecting) :
    connect c = (c, []) ∧ (connect c).1.transports = c.transports ∧
      Event.opened ∉ (connect c).2 ∧
      ∀ c' : Connector, connect (connect c').1 = ((connect c').1, []) := by
  have hc : connect c = (c, []) := by
    unfold connect
    rw [if_pos h]
  refine ⟨hc, by rw [hc], by rw [hc]; simp, ?_⟩
  intro c'
  unfold connect
  by_cases h' : c'.state = .connected ∨ c'.state = .connecting
  · simp [h']
  · simp [h']

/-- Instance of `connect_idempotent`: the connected sample connector. -/
theorem connect_idempotent_witness :
    (sampleConnector.state = .connected ∨ sampleConnector.state = .connecting) ∧
      connect sampleConnector = (sampleConnector, []) :=
  ⟨Or.inl rfl, (connect_idempotent sampleConnector (Or.inl rfl)).1⟩

theorem map_listener_invokeAll (event : Event) :
    ∀ handlers : List Listener,
      (invokeAll event handlers).map (fun i => i.listener) = handlers.map (fun l => l.id)
  | [] => rfl
  | l :: rest => by
    have ih := map_listener_invokeAll event rest
    unfold invokeAll
    cases l.handler event <;> simp [ih]

theorem invokeAll_append (event : Event) (after : List Listener) :
    ∀ before : List Listener,
      invokeAll event (before ++ after) = invokeAll event before ++ invokeAll event after
  | [] => rfl
  | l :: rest => by
    have ih := invokeAll_append event after rest
    simp only [List.cons_append, invokeAll]
    cases l.handler event <;> simp [ih]

/-- C13: when a handler registered for an event throws during a dispatch, the
handlers registered after it for the same event are all still called, in
registration order, after the handlers registered before it. -/
theorem dispatch_isolates_listeners (event : Event) (before after : List Listener)
    (l : Listener) (e : String) (hthrow : l.handler event = .error e) :
    invokeAll event (before ++ l :: after) =
        invokeAll event before ++ { listener := l.id, threw := true } :: invokeAll event after ∧
      (invokeAll event after).map (fun i => i.listener) = after.map (fun l => l.id) ∧
      (invokeAll event (before ++ l :: after)).map (fun i => i.listener) =
        (before ++ l :: after).map (fun l => l.id) := by
  refine ⟨?_, map_listener_invokeAll event after, map_listener_invokeAll event _⟩
  rw [invokeAll_append]
  congr 1
  simp only [invokeAll, hthrow]

/-- Instance of `dispatch_isolates_listeners`: on the sample connector the second listener
of `newTransactions` throws and the third one is still called. -/
theorem dispatch_isolates_listeners_witness :
    throwingHandler (Event.newTransactions [t1]) = .error "handler failed" ∧
      dispatch sampleConnector (Event.newTransactions [t1]) =
        [{ listener := 1, threw := false }, { listener := 2, threw := true },
          { listener := 4, threw := false }] ∧
      invokeAll (Event.newTransactions [t1])
          ([{ id := 1, eventName := "newTransactions", handler := quietHandler }] ++
            { id := 2, eventName := "newTransactions", handler := throwingHandler } ::
              [{ id := 4, eventName := "newTransactions", handler := quietHandler }]) =
        invokeAll (Event.newTransactions [t1])
            [{ id := 1, eventName := "newTransactions", handler := quietHandler }] ++
          { listener := 2, threw := true } ::
            invokeAll (Event.newTransactions [t1])
              [{ id := 4, eventName := "newTransactions", handler := quietHandler }] :=
  ⟨rfl, by decide,
    (dispatch_isolates_listeners (Event.newTransactions [t1])
      [{ id := 1, eventName := "newTransactions", handler := quietHandler }]
      [{ id := 4, eventName := "newTransactions", handler := quietHandler }]
      { id := 2, eventName := "newTransactions", handler := throwingHandler }
      "handler failed" rfl).1⟩

/-- C14: an inbound message whose `type` is neither "initial_data" nor
"new_transactions" fires no event and calls no handler, leaves the connector
as it was, and leaves the state of the hook, its view included, as it was. -/
theorem unknown_message_dropped (c : Connector) (m : Message)
    (h₁ : m.type ≠ some "initial_data") (h₂ : m.type ≠ some "new_transactions") :
    onMessage c m = (c, [], []) ∧
      ∀ s : HookState, run s (onMessage c m).2.1 = s ∧
        (run s (onMessage c m).2.1).transactions = s.transactions := by
  have hc : classify m = none := by
    unfold classify
    rw [if_neg h₁, if_neg h₂]
  have hm : onMessage c m = (c, [], []) := by
    unfold onMessage
    rw [hc]
  refine ⟨hm, ?_⟩
  intro s
  rw [hm]
  exact ⟨rfl, rfl⟩

/-- Instance of `unknown_message_dropped`: a message of type "heartbeat" and a message
without a type. -/
theorem unknown_message_dropped_witness :
    (some "heartbeat" : Option String) ≠ some "initial_data" ∧
      (some "heartbeat" : Option String) ≠ some "new_transactions" ∧
      onMessage sampleConnector { type := some "heartbeat", payload := some [t1] }
        = (sampleConnector, [], []) ∧
      onMessage sampleConnector { type := none, payload := none }
        = (sampleConnector, [], []) :=
  ⟨by decide, by decide,
    (unknown_message_dropped sampleConnector { type := some "heartbeat", payload := some [t1] }
      (by decide) (by decide)).1,
    (unknown_message_dropped sampleConnector { type := none, payload := none }
      (by decide) (by decide)).1⟩


theorem connectionConsistent_step (s : HookState) (e : Event) (h : ConnectionConsistent s) :
    ConnectionConsistent (step s e) := by
  unfold ConnectionConsistent at h ⊢
  cases e with
  | initialData data => simpa [step, handleInitialData] using h
  | newTransactions data => simpa [step, onNewTransactions] using h
  | opened => simp [step, handleOpen]
  | closed => simp [step, handleClose]
  | failed event => simp [step, handleError]

theorem connectionConsistent_run (events : List Event) :
    ∀ s : HookState, ConnectionConsistent s → ConnectionConsistent (run s events) := by
  induction events with
  | nil => intro s hs; simpa [run] using hs
  | cons e es ih =>
    intro s hs
    simpa [run] using ih (step s e) (connectionConsistent_step s e hs)

/-- C21: in every state of the hook reached from the initial state by a finite
sequence of open, close, error, initialData and newTransactions events, a
connected hook has no error: `isConnected = true` implies `error = null`. -/
theorem connected_implies_no_error (events : List Event)
    (hconn : (run initialState events).isConnected = true) :
    (run initialState events).error = none :=
  connectionConsistent_run events initialState (by simp [ConnectionConsistent, initialState])
    hconn

/-- Instance of `connected_implies_no_error`: an error followed by a successful open
leaves the hook connected and without error. -/
theorem connected_implies_no_error_witness :
    (run initialState
        [Event.opened, Event.newTransactions [t1], Event.failed "lost", Event.closed,
          Event.opened]).isConnected = true ∧
      (run initialState
        [Event.opened, Event.newTransactions [t1], Event.failed "lost", Event.closed,
          Event.opened]).error = none :=
  ⟨by decide, connected_implies_no_error _ (by decide)⟩

end BondTracker
